import Mathlib

/-!
Verification of the bounding-box reducer `getGeoJSONBBox` from
`src/MapView.tsx` of the wb-builder-exercise repository.

The JavaScript values that can reach the function are modelled by `JSValue`;
JavaScript numbers are modelled by `JSNum` (an exact rational for every finite
double, plus `nan`, `inf` and `ninf`).  The function performs no arithmetic on
the numbers — only `typeof` tests, `Math.min`, `Math.max` and comparisons — so
the rational carrier is an exact model of every behaviour the claims mention.

Source being modelled (src/MapView.tsx, lines 297-321):

  function getGeoJSONBBox(geojson: any): mapboxgl.LngLatBoundsLike | null {
    const coords: Array<[number, number]> = [];
    const pushCoord = (c: any) => {
      if (Array.isArray(c) && typeof c[0] === "number" && typeof c[1] === "number") {
        coords.push([c[0], c[1]]);
      } else if (Array.isArray(c)) {
        for (const item of c) pushCoord(item);
      }
    };
    const features = geojson?.features ?? [];
    for (const f of features) {
      pushCoord(f?.geometry?.coordinates);
    }
    if (!coords.length) return null;
    let minX = coords[0][0], minY = coords[0][1], maxX = coords[0][0], maxY = coords[0][1];
    for (const [x, y] of coords) {
      minX = Math.min(minX, x);
      minY = Math.min(minY, y);
      maxX = Math.max(maxX, x);
      maxY = Math.max(maxY, y);
    }
    return [minX, minY, maxX, maxY];
  }
-/

/-- A JavaScript number: a finite value (exact rational), `NaN`, `+Infinity`
or `-Infinity`.  `typeof` yields `"number"` for all four. -/
inductive JSNum where
  | fin (q : ℚ)
  | nan
  | inf
  | ninf
deriving DecidableEq, Repr

/-- A JavaScript value as far as `getGeoJSONBBox` can observe it. -/
inductive JSValue where
  | num (n : JSNum)
  | str (s : String)
  | bool (b : Bool)
  | null
  | undefined
  | arr (xs : List JSValue)
  | obj (fields : List (String × JSValue))

/-- `Number.isFinite` / finiteness of a JS number. -/
def JSNum.isFinite : JSNum → Bool
  | .fin _ => true
  | _ => false

/-- `Number.isNaN`. -/
def JSNum.isNaN : JSNum → Bool
  | .nan => true
  | _ => false

/-- JavaScript `a <= b` on numbers: any comparison with `NaN` is false;
otherwise the order is `-Infinity < finite < +Infinity`. -/
def jsLe : JSNum → JSNum → Bool
  | .nan, _ => false
  | _, .nan => false
  | .ninf, _ => true
  | _, .ninf => false
  | _, .inf => true
  | .inf, _ => false
  | .fin a, .fin b => decide (a ≤ b)

/-- `Math.min` on two JS numbers: `NaN` is absorbing, `-Infinity` dominates,
`+Infinity` is the identity. -/
def mathMin : JSNum → JSNum → JSNum
  | .nan, _ => .nan
  | _, .nan => .nan
  | .ninf, _ => .ninf
  | _, .ninf => .ninf
  | .inf, b => b
  | a, .inf => a
  | .fin a, .fin b => .fin (min a b)

/-- `Math.max` on two JS numbers: `NaN` is absorbing, `+Infinity` dominates,
`-Infinity` is the identity. -/
def mathMax : JSNum → JSNum → JSNum
  | .nan, _ => .nan
  | _, .nan => .nan
  | .inf, _ => .inf
  | _, .inf => .inf
  | .ninf, b => b
  | a, .ninf => a
  | .fin a, .fin b => .fin (max a b)

/-- Optional-chained property access `v?.k`: `undefined` on `null`/`undefined`,
the last binding of `k` on an object (JS object literals keep the last
duplicate key), `undefined` on every other value. -/
def propAccess (v : JSValue) (k : String) : JSValue :=
  match v with
  | .obj fields =>
    match fields.reverse.find? (fun p => p.1 = k) with
    | some p => p.2
    | none => .undefined
  | _ => .undefined

/-- Nullish coalescing `v ?? d`. -/
def nullish (v d : JSValue) : JSValue :=
  match v with
  | .null => d
  | .undefined => d
  | _ => v

/-- What `for (const x of v)` iterates over: the elements of an array, the
characters of a string (as one-character strings); every other value is not
iterable and the loop throws a `TypeError`. -/
def iterate : JSValue → Option (List JSValue)
  | .arr xs => some xs
  | .str s => some (s.data.map fun c => .str (String.mk [c]))
  | _ => none

mutual

/-- The recursive walk `pushCoord` of the source, with the list of recorded
coordinate pairs as its result: an array whose first two elements are numbers
is recorded as one pair (nothing else of it is visited); any other array is
recursed into elementwise; every non-array contributes nothing. -/
def pushCoord : JSValue → List (JSNum × JSNum)
  | .arr (.num a :: .num b :: _) => [(a, b)]
  | .arr xs => pushCoordList xs
  | _ => []

/-- Elementwise recursion of `pushCoord` over the children of an array
(the `for (const item of c) pushCoord(item)` branch). -/
def pushCoordList : List JSValue → List (JSNum × JSNum)
  | [] => []
  | c :: cs => pushCoord c ++ pushCoordList cs

end

/-- The coordinate pairs one feature contributes:
`pushCoord(f?.geometry?.coordinates)`. -/
def coordsOfFeature (f : JSValue) : List (JSNum × JSNum) :=
  pushCoord (propAccess (propAccess f "geometry") "coordinates")

/-- The value the `for (const f of features)` loop iterates over:
`geojson?.features ?? []`. -/
def featuresVal (g : JSValue) : JSValue :=
  nullish (propAccess g "features") (.arr [])

/-- The full `coords` list recorded over all features, or `none` when the
`for`-of loop throws because `features` is not iterable. -/
def recordedCoords (g : JSValue) : Option (List (JSNum × JSNum)) :=
  match iterate (featuresVal g) with
  | none => none
  | some fs => some ((fs.map coordsOfFeature).flatten)

/-- The output extent `[minX, minY, maxX, maxY]`. -/
structure Extent where
  minX : JSNum
  minY : JSNum
  maxX : JSNum
  maxY : JSNum
deriving DecidableEq, Repr

/-- One step of the min/max accumulation loop of the source. -/
def bboxStep (e : Extent) (c : JSNum × JSNum) : Extent :=
  ⟨mathMin e.minX c.1, mathMin e.minY c.2, mathMax e.maxX c.1, mathMax e.maxY c.2⟩

/-- The final reduction of the recorded coordinate list: `null` when it is
empty, otherwise the fold seeded from `coords[0]` and run over the whole
list, exactly as in the source. -/
def bboxOfList : List (JSNum × JSNum) → Option Extent
  | [] => none
  | c :: cs => some (List.foldl bboxStep ⟨c.1, c.2, c.1, c.2⟩ ((c :: cs)))

/-- `getGeoJSONBBox`: `.error ()` models the `TypeError` thrown by
`for (const f of features)` on a non-iterable `features`; `.ok none` models
the `null` return; `.ok (some e)` models the returned extent. -/
def getGeoJSONBBox (g : JSValue) : Except Unit (Option Extent) :=
  match recordedCoords g with
  | none => .error ()
  | some coords => .ok (bboxOfList coords)

instance : DecidableEq (Except Unit (Option Extent)) := fun a b =>
  match a, b with
  | .ok x, .ok y => decidable_of_iff (x = y) (by simp)
  | .error x, .error y => decidable_of_iff (x = y) (by simp)
  | .ok _, .error _ => isFalse (by simp)
  | .error _, .ok _ => isFalse (by simp)

/-- A Feature object with a Point geometry at `(x, y)`. -/
def pointFeature (x y : JSNum) : JSValue :=
  .obj [("type", .str "Feature"), ("properties", .obj []),
        ("geometry", .obj [("type", .str "Point"),
                           ("coordinates", .arr [.num x, .num y])])]

/-- A Feature object whose geometry has the given coordinate tree. -/
def geomFeature (t : String) (coords : JSValue) : JSValue :=
  .obj [("type", .str "Feature"), ("properties", .obj []),
        ("geometry", .obj [("type", .str t), ("coordinates", coords)])]

/-- A FeatureCollection object over the given features. -/
def fc (fs : List JSValue) : JSValue :=
  .obj [("type", .str "FeatureCollection"), ("features", .arr fs)]

/-- A LineString whose first coordinate pair is `[NaN, 0]` and whose second is
`[1, 2]`: both pairs pass the `typeof === "number"` test and are recorded. -/
def gC1cex : JSValue :=
  fc [geomFeature "LineString"
        (.arr [.arr [.num .nan, .num (.fin 0)], .arr [.num (.fin 1), .num (.fin 2)]])]

/-- A FeatureCollection with a single Point at `(1, 2)`. -/
def gC1w : JSValue := fc [pointFeature (.fin 1) (.fin 2)]

/-- A FeatureCollection with Points at `(3, 4)` and `(5, 1)`. -/
def gC10w : JSValue := fc [pointFeature (.fin 3) (.fin 4), pointFeature (.fin 5) (.fin 1)]

/-- The P5 collection: one feature with `geometry: null`, one with no
`geometry` field, one valid Point at `(-122.2, 37.7)`. -/
def gC7 : JSValue :=
  fc [.obj [("type", .str "Feature"), ("geometry", .null)],
      .obj [("type", .str "Feature"), ("properties", .obj [])],
      pointFeature (.fin (mkRat (-1222) 10)) (.fin (mkRat 377 10))]

/-- The P2 collection: a single Point feature at `(-122.2, 37.7)`. -/
def gP2 : JSValue := fc [pointFeature (.fin (mkRat (-1222) 10)) (.fin (mkRat 377 10))]

/-- A Point whose coordinate array is `[Infinity, 0]`. -/
def gC3cex : JSValue := fc [geomFeature "Point" (.arr [.num .inf, .num (.fin 0)])]

/-- The accumulation step, lifted so that the seeding from `coords[0]` becomes
the `none → some` transition of one uniform fold. -/
def bboxStepO (o : Option Extent) (c : JSNum × JSNum) : Option Extent :=
  match o with
  | none => some ⟨c.1, c.2, c.1, c.2⟩
  | some e => some (bboxStep e c)

/-- The three P3 Point features `(-122.5, 37.6)`, `(-121.9, 37.9)`,
`(-122.0, 37.5)`. -/
def p3a : JSValue := pointFeature (.fin (mkRat (-245) 2)) (.fin (mkRat 188 5))

def p3b : JSValue := pointFeature (.fin (mkRat (-1219) 10)) (.fin (mkRat 379 10))

def p3c : JSValue := pointFeature (.fin (-122)) (.fin (mkRat 75 2))

mutual

/-- State-passing model of the source's `pushCoord` closure: the `coords`
array is threaded explicitly and `coords.push` is an append. -/
def pushCoordAcc : List (JSNum × JSNum) → JSValue → List (JSNum × JSNum)
  | acc, .arr (.num a :: .num b :: _) => acc ++ [(a, b)]
  | acc, .arr xs => pushCoordListAcc acc xs
  | acc, _ => acc

/-- State-passing recursion over the children of an array. -/
def pushCoordListAcc : List (JSNum × JSNum) → List JSValue → List (JSNum × JSNum)
  | acc, [] => acc
  | acc, c :: cs => pushCoordListAcc (pushCoordAcc acc c) cs

end

/-- The feature loop of the source threading the mutable `coords` array. -/
def collectAcc : List (JSNum × JSNum) → List JSValue → List (JSNum × JSNum)
  | acc, [] => acc
  | acc, f :: fs =>
    collectAcc (pushCoordAcc acc (propAccess (propAccess f "geometry") "coordinates")) fs

/-- One full call of the source function in the state-passing model: each call
starts from a fresh empty `coords` array (`const coords = []`), so no state
survives between calls. -/
def getGeoJSONBBoxRun (g : JSValue) : Except Unit (Option Extent) :=
  match iterate (featuresVal g) with
  | none => .error ()
  | some fs => .ok (bboxOfList (collectAcc [] fs))

theorem mathMin_self (a : JSNum) : mathMin a a = a := by
  cases a <;> simp [mathMin]

theorem mathMax_self (a : JSNum) : mathMax a a = a := by
  cases a <;> simp [mathMax]

theorem mathMin_comm (a b : JSNum) : mathMin a b = mathMin b a := by
  cases a <;> cases b <;> simp [mathMin, min_comm]

theorem mathMax_comm (a b : JSNum) : mathMax a b = mathMax b a := by
  cases a <;> cases b <;> simp [mathMax, max_comm]

theorem mathMin_right_comm (a b c : JSNum) :
    mathMin (mathMin a b) c = mathMin (mathMin a c) b := by
  cases a <;> cases b <;> cases c <;> simp [mathMin, min_assoc, min_comm, min_left_comm]

theorem mathMax_right_comm (a b c : JSNum) :
    mathMax (mathMax a b) c = mathMax (mathMax a c) b := by
  cases a <;> cases b <;> cases c <;> simp [mathMax, max_assoc, max_comm, max_left_comm]

theorem mathMin_eq_or (a b : JSNum) : mathMin a b = a ∨ mathMin a b = b := by
  cases a <;> cases b <;> simp [mathMin] <;> exact le_total _ _

theorem mathMax_eq_or (a b : JSNum) : mathMax a b = a ∨ mathMax a b = b := by
  cases a <;> cases b <;> simp [mathMax] <;> exact le_total _ _

theorem jsLe_refl (a : JSNum) (h : a.isNaN = false) : jsLe a a = true := by
  cases a <;> simp_all [jsLe, JSNum.isNaN]

theorem jsLe_trans (a b c : JSNum) (h1 : jsLe a b = true) (h2 : jsLe b c = true) :
    jsLe a c = true := by
  cases a <;> cases b <;> cases c <;> simp_all [jsLe] <;> linarith

theorem mathMin_notNaN (a b : JSNum) (ha : a.isNaN = false) (hb : b.isNaN = false) :
    (mathMin a b).isNaN = false := by
  cases a <;> cases b <;> simp_all [mathMin, JSNum.isNaN]

theorem mathMax_notNaN (a b : JSNum) (ha : a.isNaN = false) (hb : b.isNaN = false) :
    (mathMax a b).isNaN = false := by
  cases a <;> cases b <;> simp_all [mathMax, JSNum.isNaN]

theorem mathMin_le_left (a b : JSNum) (ha : a.isNaN = false) (hb : b.isNaN = false) :
    jsLe (mathMin a b) a = true := by
  cases a <;> cases b <;> simp_all [mathMin, jsLe, JSNum.isNaN, min_le_left]

theorem mathMin_le_right (a b : JSNum) (ha : a.isNaN = false) (hb : b.isNaN = false) :
    jsLe (mathMin a b) b = true := by
  rw [mathMin_comm]; exact mathMin_le_left b a hb ha

theorem le_mathMax_left (a b : JSNum) (ha : a.isNaN = false) (hb : b.isNaN = false) :
    jsLe a (mathMax a b) = true := by
  cases a <;> cases b <;> simp_all [mathMax, jsLe, JSNum.isNaN, le_max_left]

theorem le_mathMax_right (a b : JSNum) (ha : a.isNaN = false) (hb : b.isNaN = false) :
    jsLe b (mathMax a b) = true := by
  rw [mathMax_comm]; exact le_mathMax_left b a hb ha

theorem foldl_mathMin_notNaN (l : List JSNum) (a : JSNum) (ha : a.isNaN = false)
    (hl : ∀ x ∈ l, x.isNaN = false) : (List.foldl mathMin a l).isNaN = false := by
  induction l generalizing a with
  | nil => exact ha
  | cons b l ih =>
    exact ih (mathMin a b) (mathMin_notNaN a b ha (hl b (by simp)))
      (fun x hx => hl x (by simp [hx]))

theorem foldl_mathMax_notNaN (l : List JSNum) (a : JSNum) (ha : a.isNaN = false)
    (hl : ∀ x ∈ l, x.isNaN = false) : (List.foldl mathMax a l).isNaN = false := by
  induction l generalizing a with
  | nil => exact ha
  | cons b l ih =>
    exact ih (mathMax a b) (mathMax_notNaN a b ha (hl b (by simp)))
      (fun x hx => hl x (by simp [hx]))

theorem foldl_mathMin_le_init (l : List JSNum) (a : JSNum) (ha : a.isNaN = false)
    (hl : ∀ x ∈ l, x.isNaN = false) : jsLe (List.foldl mathMin a l) a = true := by
  induction l generalizing a with
  | nil => exact jsLe_refl a ha
  | cons b l ih =>
    have hb : b.isNaN = false := hl b (by simp)
    have h1 : jsLe (List.foldl mathMin (mathMin a b) l) (mathMin a b) = true :=
      ih (mathMin a b) (mathMin_notNaN a b ha hb) (fun x hx => hl x (by simp [hx]))
    exact jsLe_trans _ _ _ h1 (mathMin_le_left a b ha hb)

theorem foldl_mathMax_ge_init (l : List JSNum) (a : JSNum) (ha : a.isNaN = false)
    (hl : ∀ x ∈ l, x.isNaN = false) : jsLe a (List.foldl mathMax a l) = true := by
  induction l generalizing a with
  | nil => exact jsLe_refl a ha
  | cons b l ih =>
    have hb : b.isNaN = false := hl b (by simp)
    have h1 : jsLe (mathMax a b) (List.foldl mathMax (mathMax a b) l) = true :=
      ih (mathMax a b) (mathMax_notNaN a b ha hb) (fun x hx => hl x (by simp [hx]))
    exact jsLe_trans _ _ _ (le_mathMax_left a b ha hb) h1

theorem foldl_mathMin_le_mem (l : List JSNum) (a x : JSNum) (ha : a.isNaN = false)
    (hl : ∀ y ∈ l, y.isNaN = false) (hx : x ∈ l) :
    jsLe (List.foldl mathMin a l) x = true := by
  induction l generalizing a with
  | nil => cases hx
  | cons b l ih =>
    have hb : b.isNaN = false := hl b (by simp)
    rcases List.mem_cons.mp hx with h | h
    · subst h
      have h1 : jsLe (List.foldl mathMin (mathMin a x) l) (mathMin a x) = true :=
        foldl_mathMin_le_init l (mathMin a x) (mathMin_notNaN a x ha hb)
          (fun y hy => hl y (by simp [hy]))
      exact jsLe_trans _ _ _ h1 (mathMin_le_right a x ha hb)
    · exact ih (mathMin a b) (mathMin_notNaN a b ha hb)
        (fun y hy => hl y (by simp [hy])) h

theorem foldl_mathMax_ge_mem (l : List JSNum) (a x : JSNum) (ha : a.isNaN = false)
    (hl : ∀ y ∈ l, y.isNaN = false) (hx : x ∈ l) :
    jsLe x (List.foldl mathMax a l) = true := by
  induction l generalizing a with
  | nil => cases hx
  | cons b l ih =>
    have hb : b.isNaN = false := hl b (by simp)
    rcases List.mem_cons.mp hx with h | h
    · subst h
      have h1 : jsLe (mathMax a x) (List.foldl mathMax (mathMax a x) l) = true :=
        foldl_mathMax_ge_init l (mathMax a x) (mathMax_notNaN a x ha hb)
          (fun y hy => hl y (by simp [hy]))
      exact jsLe_trans _ _ _ (le_mathMax_right a x ha hb) h1
    · exact ih (mathMax a b) (mathMax_notNaN a b ha hb)
        (fun y hy => hl y (by simp [hy])) h

theorem foldl_mathMin_attained (l : List JSNum) (a : JSNum) :
    List.foldl mathMin a l = a ∨ List.foldl mathMin a l ∈ l := by
  induction l generalizing a with
  | nil => exact Or.inl rfl
  | cons b l ih =>
    rcases ih (mathMin a b) with h | h
    · rcases mathMin_eq_or a b with h2 | h2
      · exact Or.inl (h.trans h2)
      · exact Or.inr (by simp [h.trans h2])
    · exact Or.inr (by simp [h])

theorem foldl_mathMax_attained (l : List JSNum) (a : JSNum) :
    List.foldl mathMax a l = a ∨ List.foldl mathMax a l ∈ l := by
  induction l generalizing a with
  | nil => exact Or.inl rfl
  | cons b l ih =>
    rcases ih (mathMax a b) with h | h
    · rcases mathMax_eq_or a b with h2 | h2
      · exact Or.inl (h.trans h2)
      · exact Or.inr (by simp [h.trans h2])
    · exact Or.inr (by simp [h])

/-- The accumulation loop decomposes into four independent scalar folds. -/
theorem foldl_bboxStep_eq (l : List (JSNum × JSNum)) (e : Extent) :
    List.foldl bboxStep e l =
      ⟨List.foldl mathMin e.minX (l.map Prod.fst),
       List.foldl mathMin e.minY (l.map Prod.snd),
       List.foldl mathMax e.maxX (l.map Prod.fst),
       List.foldl mathMax e.maxY (l.map Prod.snd)⟩ := by
  induction l generalizing e with
  | nil => rfl
  | cons c l ih =>
    rw [List.foldl_cons, ih (bboxStep e c)]
    rfl

theorem JSNum.notNaN_of_finite (a : JSNum) (h : a.isFinite = true) : a.isNaN = false := by
  cases a <;> simp_all [JSNum.isFinite, JSNum.isNaN]

/-- Over a non-empty coordinate list with no `NaN` component, the reduction
returns an extent whose four bounds bound every coordinate and are each
attained by one of them, with min ≤ max componentwise. -/
theorem bboxOfList_bounds (c : JSNum × JSNum) (cs : List (JSNum × JSNum))
    (h : ∀ p ∈ c :: cs, p.1.isNaN = false ∧ p.2.isNaN = false) :
    ∃ e, bboxOfList (c :: cs) = some e ∧
      (∀ p ∈ c :: cs, jsLe e.minX p.1 = true ∧ jsLe p.1 e.maxX = true ∧
        jsLe e.minY p.2 = true ∧ jsLe p.2 e.maxY = true) ∧
      (∃ p ∈ c :: cs, e.minX = p.1) ∧ (∃ p ∈ c :: cs, e.maxX = p.1) ∧
      (∃ p ∈ c :: cs, e.minY = p.2) ∧ (∃ p ∈ c :: cs, e.maxY = p.2) ∧
      jsLe e.minX e.maxX = true ∧ jsLe e.minY e.maxY = true := by
  have hfst : ∀ x ∈ (c :: cs).map Prod.fst, JSNum.isNaN x = false := by
    intro x hx
    rcases List.mem_map.mp hx with ⟨p, hp, rfl⟩
    exact (h p hp).1
  have hsnd : ∀ x ∈ (c :: cs).map Prod.snd, JSNum.isNaN x = false := by
    intro x hx
    rcases List.mem_map.mp hx with ⟨p, hp, rfl⟩
    exact (h p hp).2
  have hc1 : c.1.isNaN = false := (h c (by simp)).1
  have hc2 : c.2.isNaN = false := (h c (by simp)).2
  have hE : bboxOfList (c :: cs) =
      some ⟨List.foldl mathMin c.1 ((c :: cs).map Prod.fst),
            List.foldl mathMin c.2 ((c :: cs).map Prod.snd),
            List.foldl mathMax c.1 ((c :: cs).map Prod.fst),
            List.foldl mathMax c.2 ((c :: cs).map Prod.snd)⟩ := by
    simp only [bboxOfList, foldl_bboxStep_eq]
  refine ⟨_, hE, ?_, ?_, ?_, ?_, ?_, ?_, ?_⟩
  · intro p hp
    refine ⟨?_, ?_, ?_, ?_⟩
    · exact foldl_mathMin_le_mem _ _ _ hc1 hfst (List.mem_map_of_mem Prod.fst hp)
    · exact foldl_mathMax_ge_mem _ _ _ hc1 hfst (List.mem_map_of_mem Prod.fst hp)
    · exact foldl_mathMin_le_mem _ _ _ hc2 hsnd (List.mem_map_of_mem Prod.snd hp)
    · exact foldl_mathMax_ge_mem _ _ _ hc2 hsnd (List.mem_map_of_mem Prod.snd hp)
  · rcases foldl_mathMin_attained ((c :: cs).map Prod.fst) c.1 with h1 | h1
    · exact ⟨c, by simp, h1⟩
    · rcases List.mem_map.mp h1 with ⟨p, hp, hpe⟩
      exact ⟨p, hp, hpe.symm⟩
  · rcases foldl_mathMax_attained ((c :: cs).map Prod.fst) c.1 with h1 | h1
    · exact ⟨c, by simp, h1⟩
    · rcases List.mem_map.mp h1 with ⟨p, hp, hpe⟩
      exact ⟨p, hp, hpe.symm⟩
  · rcases foldl_mathMin_attained ((c :: cs).map Prod.snd) c.2 with h1 | h1
    · exact ⟨c, by simp, h1⟩
    · rcases List.mem_map.mp h1 with ⟨p, hp, hpe⟩
      exact ⟨p, hp, hpe.symm⟩
  · rcases foldl_mathMax_attained ((c :: cs).map Prod.snd) c.2 with h1 | h1
    · exact ⟨c, by simp, h1⟩
    · rcases List.mem_map.mp h1 with ⟨p, hp, hpe⟩
      exact ⟨p, hp, hpe.symm⟩
  · exact jsLe_trans _ _ _ (foldl_mathMin_le_init _ _ hc1 hfst)
      (foldl_mathMax_ge_init _ _ hc1 hfst)
  · exact jsLe_trans _ _ _ (foldl_mathMin_le_init _ _ hc2 hsnd)
      (foldl_mathMax_ge_init _ _ hc2 hsnd)

/-- When the recorded coordinate list is known, the function's result is the
reduction of that list. -/
theorem getGeoJSONBBox_eq_of_recorded (g : JSValue) (l : List (JSNum × JSNum))
    (hl : recordedCoords g = some l) : getGeoJSONBBox g = .ok (bboxOfList l) := by
  simp [getGeoJSONBBox, hl]

theorem bboxOfList_eq_none_iff (l : List (JSNum × JSNum)) :
    bboxOfList l = none ↔ l = [] := by
  cases l <;> simp [bboxOfList]

/-- Full characterisation of a returned extent when no recorded coordinate
component is `NaN`: bounds, attainment and componentwise ordering. -/
theorem getGeoJSONBBox_extent_spec (g : JSValue) (l : List (JSNum × JSNum)) (e : Extent)
    (hl : recordedCoords g = some l)
    (hnan : ∀ p ∈ l, p.1.isNaN = false ∧ p.2.isNaN = false)
    (he : getGeoJSONBBox g = .ok (some e)) :
    (∀ p ∈ l, jsLe e.minX p.1 = true ∧ jsLe p.1 e.maxX = true ∧
      jsLe e.minY p.2 = true ∧ jsLe p.2 e.maxY = true) ∧
    (∃ p ∈ l, e.minX = p.1) ∧ (∃ p ∈ l, e.maxX = p.1) ∧
    (∃ p ∈ l, e.minY = p.2) ∧ (∃ p ∈ l, e.maxY = p.2) ∧
    jsLe e.minX e.maxX = true ∧ jsLe e.minY e.maxY = true := by
  have h2 := getGeoJSONBBox_eq_of_recorded g l hl
  have h4 : bboxOfList l = some e := Except.ok.inj (h2.symm.trans he)
  cases l with
  | nil => simp [bboxOfList] at h4
  | cons c cs =>
    rcases bboxOfList_bounds c cs hnan with ⟨e', hE, rest⟩
    have he' : e' = e := Option.some.inj (hE.symm.trans h4)
    subst he'
    exact rest

/-- C1, counterexample: on a LineString containing the pairs `[NaN, 0]` and
`[1, 2]` the function returns the non-None extent `[NaN, 0, NaN, 2]`, yet the
discovered coordinate `(1, 2)` does not satisfy `minX ≤ x` (and the discovered
`NaN` coordinate satisfies no bound at all), because `typeof NaN === "number"`
lets `NaN` into the min/max accumulation where it is absorbing.  So the claim
as stated is false. -/
theorem claim_C1_cex :
    getGeoJSONBBox gC1cex = .ok (some ⟨.nan, .fin 0, .nan, .fin 2⟩) ∧
    recordedCoords gC1cex = some [(.nan, .fin 0), (.fin 1, .fin 2)] ∧
    jsLe .nan (.fin 1) = false ∧ jsLe .nan .nan = false := by decide

/-- C1, amended: for every input, if `getGeoJSONBBox` returns a non-None
extent `[minX, minY, maxX, maxY]` and no discovered coordinate component is
`NaN`, then every discovered coordinate `(x, y)` satisfies
`minX ≤ x ≤ maxX` and `minY ≤ y ≤ maxY`, and the rectangle is the smallest
such one: each bound is attained by some discovered coordinate. -/
theorem claim_C1 (g : JSValue) (l : List (JSNum × JSNum)) (e : Extent)
    (hl : recordedCoords g = some l)
    (hnan : ∀ p ∈ l, p.1.isNaN = false ∧ p.2.isNaN = false)
    (he : getGeoJSONBBox g = .ok (some e)) :
    (∀ p ∈ l, jsLe e.minX p.1 = true ∧ jsLe p.1 e.maxX = true ∧
      jsLe e.minY p.2 = true ∧ jsLe p.2 e.maxY = true) ∧
    (∃ p ∈ l, e.minX = p.1) ∧ (∃ p ∈ l, e.maxX = p.1) ∧
    (∃ p ∈ l, e.minY = p.2) ∧ (∃ p ∈ l, e.maxY = p.2) := by
  have s := getGeoJSONBBox_extent_spec g l e hl hnan he
  exact ⟨s.1, s.2.1, s.2.2.1, s.2.2.2.1, s.2.2.2.2.1⟩

/-- C1, witness: the amended theorem applied to a one-Point collection at
`(1, 2)`, whose extent is `[1, 2, 1, 2]`. -/
theorem claim_C1_witness :
    (∀ p ∈ [((JSNum.fin 1 : JSNum), (JSNum.fin 2 : JSNum))],
      jsLe (.fin 1) p.1 = true ∧ jsLe p.1 (.fin 1) = true ∧
      jsLe (.fin 2) p.2 = true ∧ jsLe p.2 (.fin 2) = true) ∧
    (∃ p ∈ [((JSNum.fin 1 : JSNum), (JSNum.fin 2 : JSNum))], JSNum.fin 1 = p.1) ∧
    (∃ p ∈ [((JSNum.fin 1 : JSNum), (JSNum.fin 2 : JSNum))], JSNum.fin 1 = p.1) ∧
    (∃ p ∈ [((JSNum.fin 1 : JSNum), (JSNum.fin 2 : JSNum))], JSNum.fin 2 = p.2) ∧
    (∃ p ∈ [((JSNum.fin 1 : JSNum), (JSNum.fin 2 : JSNum))], JSNum.fin 2 = p.2) :=
  claim_C1 gC1w [(.fin 1, .fin 2)] ⟨.fin 1, .fin 2, .fin 1, .fin 2⟩
    (by decide) (by decide) (by decide)

/-- C10: whenever `getGeoJSONBBox` returns a non-None extent and every
recorded coordinate component is a finite number, the extent is well-ordered
(`minX ≤ maxX`, `minY ≤ maxY`) and each of the four bounds equals a coordinate
component actually present among the recorded coordinates. -/
theorem claim_C10 (g : JSValue) (l : List (JSNum × JSNum)) (e : Extent)
    (hl : recordedCoords g = some l)
    (hfin : ∀ p ∈ l, p.1.isFinite = true ∧ p.2.isFinite = true)
    (he : getGeoJSONBBox g = .ok (some e)) :
    jsLe e.minX e.maxX = true ∧ jsLe e.minY e.maxY = true ∧
    (∃ p ∈ l, e.minX = p.1) ∧ (∃ p ∈ l, e.maxX = p.1) ∧
    (∃ p ∈ l, e.minY = p.2) ∧ (∃ p ∈ l, e.maxY = p.2) := by
  have hnan : ∀ p ∈ l, p.1.isNaN = false ∧ p.2.isNaN = false := fun p hp =>
    ⟨JSNum.notNaN_of_finite _ (hfin p hp).1, JSNum.notNaN_of_finite _ (hfin p hp).2⟩
  have s := getGeoJSONBBox_extent_spec g l e hl hnan he
  exact ⟨s.2.2.2.2.2.1, s.2.2.2.2.2.2, s.2.1, s.2.2.1, s.2.2.2.1, s.2.2.2.2.1⟩

/-- C10, witness: the theorem applied to a collection of the Points `(3, 4)`
and `(5, 1)`, whose extent is `[3, 1, 5, 4]`. -/
theorem claim_C10_witness :
    jsLe (JSNum.fin 3) (JSNum.fin 5) = true ∧ jsLe (JSNum.fin 1) (JSNum.fin 4) = true ∧
    (∃ p ∈ [((JSNum.fin 3 : JSNum), (JSNum.fin 4 : JSNum)),
            ((JSNum.fin 5 : JSNum), (JSNum.fin 1 : JSNum))], JSNum.fin 3 = p.1) ∧
    (∃ p ∈ [((JSNum.fin 3 : JSNum), (JSNum.fin 4 : JSNum)),
            ((JSNum.fin 5 : JSNum), (JSNum.fin 1 : JSNum))], JSNum.fin 5 = p.1) ∧
    (∃ p ∈ [((JSNum.fin 3 : JSNum), (JSNum.fin 4 : JSNum)),
            ((JSNum.fin 5 : JSNum), (JSNum.fin 1 : JSNum))], JSNum.fin 1 = p.2) ∧
    (∃ p ∈ [((JSNum.fin 3 : JSNum), (JSNum.fin 4 : JSNum)),
            ((JSNum.fin 5 : JSNum), (JSNum.fin 1 : JSNum))], JSNum.fin 4 = p.2) :=
  claim_C10 gC10w [(.fin 3, .fin 4), (.fin 5, .fin 1)] ⟨.fin 3, .fin 1, .fin 5, .fin 4⟩
    (by decide) (by decide) (by decide)

/-- C2, counterexample: on the object `{features: 42}` the loop
`for (const f of features)` iterates a non-iterable number and throws a
`TypeError` — `getGeoJSONBBox` does not return an extent or `None` for this
input, so "never raises, for every input whatsoever" is false. -/
theorem claim_C2_cex :
    getGeoJSONBBox (.obj [("features", .num (.fin 42))]) = .error () := by decide

/-- C2, amended: for every input whose `features` field — after the
`?? []` defaulting of `null`/`undefined`/absent — is iterable (an array or a
string), `getGeoJSONBBox` signals no error and returns an extent or `None`;
when that value is not iterable the `for`-of loop raises a `TypeError`. -/
theorem claim_C2 (g : JSValue) :
    ((iterate (featuresVal g)).isSome = true → ∃ r, getGeoJSONBBox g = .ok r) ∧
    ((iterate (featuresVal g)).isSome = false → getGeoJSONBBox g = .error ()) := by
  constructor
  · intro h
    rcases Option.isSome_iff_exists.mp h with ⟨fs, hfs⟩
    refine ⟨bboxOfList ((fs.map coordsOfFeature).flatten), ?_⟩
    simp [getGeoJSONBBox, recordedCoords, hfs]
  · intro h
    have h2 : iterate (featuresVal g) = none := Option.not_isSome_iff_eq_none.mp (by simp [h])
    simp [getGeoJSONBBox, recordedCoords, h2]

/-- C2, witness: the amended theorem applied to `{features: "ab"}` (a string
is iterable, and neither character contributes a coordinate) and to
`{features: true}` (not iterable, so the call throws). -/
theorem claim_C2_witness :
    (∃ r, getGeoJSONBBox (.obj [("features", .str "ab")]) = .ok r) ∧
    getGeoJSONBBox (.obj [("features", .bool true)]) = .error () :=
  ⟨(claim_C2 (.obj [("features", .str "ab")])).1 (by decide),
   (claim_C2 (.obj [("features", .bool true)])).2 (by decide)⟩

/-- C4: when `getGeoJSONBBox` returns at all, it returns `None` exactly when
the recorded coordinate list is empty; and the three concrete cases
`null`, `{}` and `{features: []}` all return `None`. -/
theorem claim_C4 :
    (∀ g r, getGeoJSONBBox g = .ok r → (r = none ↔ recordedCoords g = some [])) ∧
    getGeoJSONBBox .null = .ok none ∧
    getGeoJSONBBox (.obj []) = .ok none ∧
    getGeoJSONBBox (.obj [("type", .str "FeatureCollection"),
                          ("features", .arr [])]) = .ok none := by
  refine ⟨?_, by decide, by decide, by decide⟩
  intro g r h
  cases hrec : recordedCoords g with
  | none => simp [getGeoJSONBBox, hrec] at h
  | some l =>
    simp [getGeoJSONBBox, hrec] at h
    rw [← h]
    simp [bboxOfList_eq_none_iff]

/-- C4, witness: the main conjunct applied to a collection whose only feature
is `null`, which returns `None` having recorded zero coordinates. -/
theorem claim_C4_witness :
    ((none : Option Extent) = none ↔
      recordedCoords (.obj [("features", .arr [.null])]) = some []) :=
  claim_C4.1 (.obj [("features", .arr [.null])]) none (by decide)

/-- C6: a sequence whose first two positional entries are numbers is recorded
as the single coordinate pair of those two entries, wherever `pushCoord`
meets it — whatever follows (a third altitude entry, nested arrays, anything)
contributes nothing, and with `rest = []` a 2-element numeric sequence is
always one coordinate pair. -/
theorem claim_C6 (a b : JSNum) (rest : List JSValue) :
    pushCoord (.arr (.num a :: .num b :: rest)) = [(a, b)] := rfl

/-- When `featuresVal` is a concrete array, the recorded list is the
concatenation of the per-feature contributions. -/
theorem recordedCoords_of_features (g : JSValue) (fs : List JSValue)
    (h : featuresVal g = .arr fs) :
    recordedCoords g = some ((fs.map coordsOfFeature).flatten) := by
  simp [recordedCoords, h, iterate]

/-- C7: on the P5 collection (one feature with `geometry: null`, one with no
`geometry` field, one valid Point) the function returns the degenerate extent
of the single valid Point and does not throw; and in general deleting any
feature that contributes zero coordinates from the `features` array leaves
the result unchanged. -/
theorem claim_C7 :
    getGeoJSONBBox gC7 =
      .ok (some ⟨.fin (mkRat (-1222) 10), .fin (mkRat 377 10), .fin (mkRat (-1222) 10), .fin (mkRat 377 10)⟩) ∧
    (∀ g g' (pre post : List JSValue) f,
      featuresVal g = .arr (pre ++ f :: post) →
      featuresVal g' = .arr (pre ++ post) →
      coordsOfFeature f = [] →
      getGeoJSONBBox g = getGeoJSONBBox g') := by
  refine ⟨by decide, ?_⟩
  intro g g' pre post f hg hg' hf
  rw [getGeoJSONBBox_eq_of_recorded g _ (recordedCoords_of_features g _ hg),
      getGeoJSONBBox_eq_of_recorded g' _ (recordedCoords_of_features g' _ hg')]
  simp [hf]

/-- C7, witness: dropping a `null` feature in front of a valid Point does not
change the result. -/
theorem claim_C7_witness :
    getGeoJSONBBox (fc [.null, pointFeature (.fin 2) (.fin 3)]) =
      getGeoJSONBBox (fc [pointFeature (.fin 2) (.fin 3)]) :=
  claim_C7.2 (fc [.null, pointFeature (.fin 2) (.fin 3)])
    (fc [pointFeature (.fin 2) (.fin 3)])
    [] [pointFeature (.fin 2) (.fin 3)] .null rfl rfl (by decide)

/-- C8: an input whose walk records exactly one coordinate `(x, y)` yields the
zero-area extent `[x, y, x, y]`, a valid non-error result; in particular the
P2 collection (one Point at `(-122.2, 37.7)`) yields
`[-122.2, 37.7, -122.2, 37.7]`. -/
theorem claim_C8 :
    (∀ g x y, recordedCoords g = some [(x, y)] →
      getGeoJSONBBox g = .ok (some ⟨x, y, x, y⟩)) ∧
    getGeoJSONBBox gP2 =
      .ok (some ⟨.fin (mkRat (-1222) 10), .fin (mkRat 377 10), .fin (mkRat (-1222) 10), .fin (mkRat 377 10)⟩) := by
  refine ⟨?_, by decide⟩
  intro g x y h
  rw [getGeoJSONBBox_eq_of_recorded g _ h]
  simp [bboxOfList, bboxStep, mathMin_self, mathMax_self]

/-- C8, witness: the single-coordinate conjunct applied to a one-Point
collection at `(9, 8)`. -/
theorem claim_C8_witness :
    getGeoJSONBBox (fc [pointFeature (.fin 9) (.fin 8)]) =
      .ok (some ⟨.fin 9, .fin 8, .fin 9, .fin 8⟩) :=
  claim_C8.1 (fc [pointFeature (.fin 9) (.fin 8)]) (.fin 9) (.fin 8) (by decide)

/-- C3, counterexample: the source tests only `typeof c[k] === "number"`,
never finiteness, so the pair `[Infinity, 0]` is recorded as a leaf
coordinate although `Infinity` is not finite, and the non-finite value enters
the min/max accumulation and surfaces in the returned extent.  The claim's
"both finite" and "non-finite values never enter the accumulation" are
false. -/
theorem claim_C3_cex :
    pushCoord (.arr [.num .inf, .num (.fin 0)]) = [(.inf, .fin 0)] ∧
    JSNum.isFinite .inf = false ∧
    getGeoJSONBBox gC3cex = .ok (some ⟨.inf, .fin 0, .inf, .fin 0⟩) := by decide

/-- C3, amended: a node is recorded as a leaf coordinate exactly when it is a
sequence whose first two elements are numeric values — finite or not.  Such a
node contributes exactly its head pair; a sequence not of that shape is
recursed into elementwise; every non-sequence contributes nothing. -/
theorem claim_C3 (xs : List JSValue) :
    (∀ a b rest, xs = .num a :: .num b :: rest → pushCoord (.arr xs) = [(a, b)]) ∧
    ((∀ a b rest, xs ≠ .num a :: .num b :: rest) →
      pushCoord (.arr xs) = pushCoordList xs) ∧
    (∀ n, pushCoord (.num n) = []) ∧ (∀ s, pushCoord (.str s) = []) ∧
    (∀ b, pushCoord (.bool b) = []) ∧ pushCoord .null = [] ∧
    pushCoord .undefined = [] ∧ (∀ fields, pushCoord (.obj fields) = []) := by
  refine ⟨?_, ?_, fun _ => rfl, fun _ => rfl, fun _ => rfl, rfl, rfl, fun _ => rfl⟩
  · intro a b rest h
    subst h
    rfl
  · intro h
    match xs, h with
    | [], _ => rfl
    | [x], _ => cases x <;> rfl
    | .num a :: .num b :: rest, h => exact absurd rfl (h a b rest)
    | .num a :: .str s :: rest, _ => rfl
    | .num a :: .bool b :: rest, _ => rfl
    | .num a :: .null :: rest, _ => rfl
    | .num a :: .undefined :: rest, _ => rfl
    | .num a :: .arr ys :: rest, _ => rfl
    | .num a :: .obj fs :: rest, _ => rfl
    | .str s :: t :: rest, _ => rfl
    | .bool b :: t :: rest, _ => rfl
    | .null :: t :: rest, _ => rfl
    | .undefined :: t :: rest, _ => rfl
    | .arr ys :: t :: rest, _ => rfl
    | .obj fs :: t :: rest, _ => rfl

/-- C3, witness: the amended theorem applied to the numeric-but-non-finite
pair `[NaN, 7]`, which is recorded as a leaf, and to the one-element sequence
`["x"]`, which is recursed into. -/
theorem claim_C3_witness :
    pushCoord (.arr [.num .nan, .num (.fin 7)]) = [(.nan, .fin 7)] ∧
    pushCoord (.arr [.str "x"]) = pushCoordList [.str "x"] :=
  ⟨(claim_C3 [.num .nan, .num (.fin 7)]).1 .nan (.fin 7) [] rfl,
   (claim_C3 [.str "x"]).2.1 (by
      intro a b rest h
      injection h with h1
      exact JSValue.noConfusion h1)⟩

/-- Folding a right-commutative step is invariant under permutation of the
list. -/
theorem foldl_eq_of_rightcomm {α β : Type} (f : β → α → β)
    (H : ∀ b x y, f (f b x) y = f (f b y) x) {l l' : List α} (p : l.Perm l') :
    ∀ b, l.foldl f b = l'.foldl f b := by
  induction p with
  | nil => intro b; rfl
  | cons x p ih => intro b; simp only [List.foldl_cons]; exact ih _
  | swap x y l => intro b; simp only [List.foldl_cons]; rw [H]
  | trans p q ih1 ih2 => intro b; rw [ih1, ih2]

theorem foldl_bboxStepO_some (l : List (JSNum × JSNum)) (e : Extent) :
    List.foldl bboxStepO (some e) l = some (List.foldl bboxStep e l) := by
  induction l generalizing e with
  | nil => rfl
  | cons c cs ih => simp only [List.foldl_cons, bboxStepO]; exact ih _

/-- The source's seeded reduction is one uniform fold from `none`. -/
theorem bboxOfList_eq_foldlO (l : List (JSNum × JSNum)) :
    bboxOfList l = l.foldl bboxStepO none := by
  cases l with
  | nil => rfl
  | cons c cs =>
    have h0 : bboxStep ⟨c.1, c.2, c.1, c.2⟩ c = ⟨c.1, c.2, c.1, c.2⟩ := by
      simp [bboxStep, mathMin_self, mathMax_self]
    simp only [bboxOfList, List.foldl_cons, bboxStepO, foldl_bboxStepO_some, h0]

theorem bboxStep_rightcomm (e : Extent) (c d : JSNum × JSNum) :
    bboxStep (bboxStep e c) d = bboxStep (bboxStep e d) c := by
  simp [bboxStep, mathMin_right_comm, mathMax_right_comm]

theorem bboxStepO_rightcomm (o : Option Extent) (c d : JSNum × JSNum) :
    bboxStepO (bboxStepO o c) d = bboxStepO (bboxStepO o d) c := by
  cases o with
  | none =>
    simp only [bboxStepO, bboxStep]
    rw [mathMin_comm c.1 d.1, mathMin_comm c.2 d.2, mathMax_comm c.1 d.1,
        mathMax_comm c.2 d.2]
  | some e => simp only [bboxStepO, bboxStep_rightcomm]

/-- The reduction of the coordinate list is permutation-invariant. -/
theorem bboxOfList_perm (l l' : List (JSNum × JSNum)) (p : l.Perm l') :
    bboxOfList l = bboxOfList l' := by
  rw [bboxOfList_eq_foldlO, bboxOfList_eq_foldlO]
  exact foldl_eq_of_rightcomm bboxStepO bboxStepO_rightcomm p none

/-- C5: the accumulation is order-independent — permuting the recorded
coordinate list never changes the reduction — and consequently for every
input and every permutation of its `features` sequence the returned extent is
identical. -/
theorem claim_C5 :
    (∀ l l', l.Perm l' → bboxOfList l = bboxOfList l') ∧
    (∀ g g' fs fs', featuresVal g = .arr fs → featuresVal g' = .arr fs' →
      fs.Perm fs' → getGeoJSONBBox g = getGeoJSONBBox g') := by
  refine ⟨bboxOfList_perm, ?_⟩
  intro g g' fs fs' hg hg' p
  rw [getGeoJSONBBox_eq_of_recorded g _ (recordedCoords_of_features g _ hg),
      getGeoJSONBBox_eq_of_recorded g' _ (recordedCoords_of_features g' _ hg')]
  have hperm : ((fs.map coordsOfFeature).flatten).Perm
      ((fs'.map coordsOfFeature).flatten) := by
    rw [← List.flatMap_def, ← List.flatMap_def]
    exact p.flatMap_right coordsOfFeature
  rw [bboxOfList_perm _ _ hperm]

/-- C5, witness: the feature-permutation conjunct applied to the P3 points in
two different orders; the common extent is `(-122.5, 37.5, -121.9, 37.9)`. -/
theorem claim_C5_witness :
    getGeoJSONBBox (fc [p3a, p3b, p3c]) = getGeoJSONBBox (fc [p3c, p3a, p3b]) ∧
    getGeoJSONBBox (fc [p3a, p3b, p3c]) =
      .ok (some ⟨.fin (mkRat (-245) 2), .fin (mkRat 75 2),
                 .fin (mkRat (-1219) 10), .fin (mkRat 379 10)⟩) :=
  ⟨claim_C5.2 (fc [p3a, p3b, p3c]) (fc [p3c, p3a, p3b])
      [p3a, p3b, p3c] [p3c, p3a, p3b] rfl rfl
      ((List.Perm.cons p3a (List.Perm.swap p3c p3b [])).trans
        (List.Perm.swap p3c p3a [p3b])),
   by decide⟩

mutual

theorem pushCoordAcc_eq (acc : List (JSNum × JSNum)) (v : JSValue) :
    pushCoordAcc acc v = acc ++ pushCoord v := by
  match v with
  | .arr (.num a :: .num b :: rest) => rfl
  | .arr [] => simpa using pushCoordListAcc_eq acc []
  | .arr [x] =>
    have h := pushCoordListAcc_eq acc [x]
    cases x <;> simpa using h
  | .arr (.num a :: .str s :: rest) => exact pushCoordListAcc_eq acc _
  | .arr (.num a :: .bool b :: rest) => exact pushCoordListAcc_eq acc _
  | .arr (.num a :: .null :: rest) => exact pushCoordListAcc_eq acc _
  | .arr (.num a :: .undefined :: rest) => exact pushCoordListAcc_eq acc _
  | .arr (.num a :: .arr ys :: rest) => exact pushCoordListAcc_eq acc _
  | .arr (.num a :: .obj fs :: rest) => exact pushCoordListAcc_eq acc _
  | .arr (.str s :: t :: rest) => exact pushCoordListAcc_eq acc _
  | .arr (.bool b :: t :: rest) => exact pushCoordListAcc_eq acc _
  | .arr (.null :: t :: rest) => exact pushCoordListAcc_eq acc _
  | .arr (.undefined :: t :: rest) => exact pushCoordListAcc_eq acc _
  | .arr (.arr ys :: t :: rest) => exact pushCoordListAcc_eq acc _
  | .arr (.obj fs :: t :: rest) => exact pushCoordListAcc_eq acc _
  | .num n => simp [pushCoordAcc, pushCoord]
  | .str s => simp [pushCoordAcc, pushCoord]
  | .bool b => simp [pushCoordAcc, pushCoord]
  | .null => simp [pushCoordAcc, pushCoord]
  | .undefined => simp [pushCoordAcc, pushCoord]
  | .obj fs => simp [pushCoordAcc, pushCoord]

theorem pushCoordListAcc_eq (acc : List (JSNum × JSNum)) (xs : List JSValue) :
    pushCoordListAcc acc xs = acc ++ pushCoordList xs := by
  match xs with
  | [] => simp [pushCoordListAcc, pushCoordList]
  | c :: cs =>
    rw [pushCoordListAcc, pushCoordAcc_eq acc c, pushCoordListAcc_eq _ cs,
        pushCoordList, List.append_assoc]

end

theorem collectAcc_eq (fs : List JSValue) (acc : List (JSNum × JSNum)) :
    collectAcc acc fs = acc ++ (fs.map coordsOfFeature).flatten := by
  induction fs generalizing acc with
  | nil => simp [collectAcc]
  | cons f fs ih =>
    rw [collectAcc, pushCoordAcc_eq, ih, List.map_cons, List.flatten_cons,
        List.append_assoc, coordsOfFeature]

/-- C9: the state-passing model of the call — the mutable `coords` array
threaded through the walk, freshly initialised at every invocation — computes
exactly the pure function `getGeoJSONBBox`, and any number of repeated calls
on the same input all return the identical output. -/
theorem claim_C9 :
    (∀ g, getGeoJSONBBoxRun g = getGeoJSONBBox g) ∧
    (∀ g n, (List.replicate n g).map getGeoJSONBBoxRun =
      List.replicate n (getGeoJSONBBox g)) := by
  have h1 : ∀ g, getGeoJSONBBoxRun g = getGeoJSONBBox g := by
    intro g
    rw [getGeoJSONBBoxRun, getGeoJSONBBox, recordedCoords]
    cases iterate (featuresVal g) with
    | none => rfl
    | some fs => simp only [collectAcc_eq fs [], List.nil_append]
  refine ⟨h1, ?_⟩
  intro g n
  rw [List.map_replicate, h1]
